import Mathlib

/-!
Shallow embedding of the littleorm query builder (littleorm.go).

The embedding covers the builder Context with its fluent configuration
methods, the pure SQL-assembly functions (sqljoin, sqlwhere, sqlselect,
InsertBatch, Update), the tag decoder, the context pool with its reset
discipline, the find dispatcher, and the WithTx transaction helper.
Driver calls are modelled by recording the query string and the parameter
list handed to the driver; dynamically typed Go parameters (interface
values) are modelled by the sum type Val.
-/

namespace LittleOrm

/-- A dynamically typed SQL parameter, modelling a Go interface value
holding either an integer or a string. -/
inductive Val where
  | int (n : Int)
  | str (s : String)
  deriving DecidableEq

/-- Go constant Grouping, the separator used between where fragments. -/
def Grouping : String := " and "

/-- Go constant ParamMarker, the SQL positional placeholder. -/
def ParamMarker : String := "?"

/-- Go constant SeqComma, the field separator. -/
def SeqComma : String := ", "

/-- Go constant SeqSpace, the fragment separator. -/
def SeqSpace : String := " "

/-- Go constant SelectTypeOne (iota value 0). -/
def SelectTypeOne : Nat := 0

/-- Go constant SelectTypeMany (iota value 1). -/
def SelectTypeMany : Nat := 1

/-- The builder Context of littleorm.go. The owning db handle is shared and
never touched by the builder logic, so it is omitted; the transaction handle
is modelled by whether one is attached (tx field nil or not in Go). -/
structure Context where
  tx : Bool
  sql : String
  name : String
  what : List String
  wheres : List String
  order : String
  group : String
  having : String
  limit : Int
  offset : Int
  args : List Val
  lockX : Bool
  lockS : Bool
  deriving DecidableEq

/-- Go utility sqljoin: strings.Join of the fragments with the separator. -/
def sqljoin (xs : List String) (seq : String) : String :=
  String.intercalate seq xs

/-- Go utility sqlwhere: joins the where fragments with the grouping
separator and adds the leading keyword when the list is non-empty. -/
def sqlwhere (wheres : List String) (grouping : String) : String :=
  if wheres.length > 0 then "where " ++ String.intercalate grouping wheres
  else ""

/-- Context.Name: sets the table name. -/
def Context.Name (ctx : Context) (name : String) : Context :=
  { ctx with name := name }

/-- Context.What: sets the explicit projection. -/
def Context.What (ctx : Context) (what : List String) : Context :=
  { ctx with what := what }

/-- Context.Where: appends one filter fragment and its parameters. -/
def Context.Where (ctx : Context) (cond : String) (args : List Val) : Context :=
  { ctx with wheres := ctx.wheres ++ [cond], args := ctx.args ++ args }

/-- Context.WhereIn: builds the fragment "field in (?, ..., ?)" with one
placeholder per element and delegates to Where with the same values. -/
def Context.WhereIn (ctx : Context) (field : String) (args : List Val) : Context :=
  ctx.Where (field ++ " in (" ++ sqljoin (List.replicate args.length ParamMarker) SeqComma ++ ")") args

/-- Context.Order: sets the ordering expression. -/
def Context.Order (ctx : Context) (order : String) : Context :=
  { ctx with order := order }

/-- Context.Limit: sets the limit. -/
def Context.Limit (ctx : Context) (limit : Int) : Context :=
  { ctx with limit := limit }

/-- Context.Offset: sets the offset. -/
def Context.Offset (ctx : Context) (offset : Int) : Context :=
  { ctx with offset := offset }

/-- Context.Group: sets the grouping expression. -/
def Context.Group (ctx : Context) (group : String) : Context :=
  { ctx with group := group }

/-- Context.Having: overwrites the having expression and appends the call
arguments to the shared parameter list. -/
def Context.Having (ctx : Context) (hv : String) (args : List Val) : Context :=
  { ctx with having := hv, args := ctx.args ++ args }

/-- Context.LockX: sets the exclusive lock flag. -/
def Context.LockX (ctx : Context) : Context :=
  { ctx with lockX := true }

/-- Context.LockS: sets the shared lock flag. -/
def Context.LockS (ctx : Context) : Context :=
  { ctx with lockS := true }

/-- A destination value for a read operation, abstracted to the list of db
tags declared on its struct fields in declaration order; a field with no db
tag contributes the empty string. -/
structure Dest where
  tags : List String
  deriving DecidableEq

/-- Go decodetags: the declared (non-empty) db tags of the destination
struct type, in field order. -/
def decodetags (dest : Dest) : List String :=
  dest.tags.filter (fun t => t ≠ "")

/-- Context.sqlselect: assembles the select statement by appending the
fragments in the order of the Go function and joining them with spaces. -/
def Context.sqlselect (ctx : Context) (dest : Dest) : String :=
  let whatPart : List String :=
    if ctx.what.length ≠ 0 then [sqljoin ctx.what SeqComma]
    else
      let whatFields := decodetags dest
      if whatFields.length > 0 then [sqljoin whatFields SeqComma]
      else ["*"]
  let sqlArray : List String :=
    ["select"] ++ whatPart ++ ["from " ++ ctx.name]
      ++ (if ctx.wheres.length ≠ 0 then [sqlwhere ctx.wheres Grouping] else [])
      ++ (if ctx.group ≠ "" then ["group by " ++ ctx.group] else [])
      ++ (if ctx.having ≠ "" then ["having " ++ ctx.having] else [])
      ++ (if ctx.order ≠ "" then ["order by " ++ ctx.order] else [])
      ++ (if ctx.limit ≠ 0 then
            ["limit " ++ toString ctx.offset ++ ", " ++ toString ctx.limit] else [])
      ++ (if ctx.lockS then ["lock in share mode"] else [])
      ++ (if ctx.lockX then ["for update"] else [])
  sqljoin sqlArray SeqSpace

/-- One call delegated to the driver: the statement text and the positional
parameters, in the order they are handed over. -/
structure ExecCall where
  query : String
  params : List Val
  deriving DecidableEq

/-- Context.Update: builds "update name set sqlset where" and hands the
driver the call arguments followed by the accumulated context arguments. -/
def Context.Update (ctx : Context) (sqlset : String) (args : List Val) : ExecCall :=
  { query := "update " ++ ctx.name ++ " set " ++ sqlset ++ " " ++ sqlwhere ctx.wheres Grouping,
    params := args ++ ctx.args }

/-- The placeholder group built for one row of an insert. -/
def placeholderGroup (row : List Val) : String :=
  "(" ++ sqljoin (List.replicate row.length ParamMarker) SeqComma ++ ")"

/-- One iteration of the InsertBatch loop: appends the row values to the
parameter accumulator and the row placeholder group to the values list. -/
def insertStep (pv : List Val × List String) (item : List Val) : List Val × List String :=
  (pv.1 ++ item, pv.2 ++ [placeholderGroup item])

/-- Context.InsertBatch: loops over the rows accumulating parameters and
placeholder groups, then builds the insert statement. -/
def Context.InsertBatch (ctx : Context) (fields : List String) (data : List (List Val)) : ExecCall :=
  let acc := data.foldl insertStep ([], [])
  { query := "insert into " ++ ctx.name ++ " (" ++ sqljoin fields SeqComma
      ++ ") values " ++ sqljoin acc.2 SeqComma,
    params := acc.1 }

/-- Context.Delete: builds "delete from name where" with the accumulated
context arguments. -/
def Context.Delete (ctx : Context) : ExecCall :=
  { query := "delete from " ++ ctx.name ++ " " ++ sqlwhere ctx.wheres Grouping,
    params := ctx.args }

/-- The zero state every acquired context is put in: the Go struct zero
value, which coincides with the state Context.reset establishes. -/
def zeroContext : Context :=
  { tx := false, sql := "", name := "", what := [], wheres := [], order := "",
    group := "", having := "", limit := 0, offset := 0, args := [],
    lockX := false, lockS := false }

/-- Context.reset: overwrites every field with its zero value, mirroring the
thirteen assignments of the Go method; the owning db handle is kept. -/
def Context.reset (_ctx : Context) : Context :=
  { sql := "", name := "", what := [], wheres := [], order := "", group := "",
    having := "", limit := 0, offset := 0, args := [], tx := false,
    lockS := false, lockX := false }

/-- DB.allocateContext: the pool factory returns a fresh zero-valued
context bound to the db handle. -/
def allocateContext : Context := zeroContext

/-- Returning a context to the pool, modelled as pushing onto the idle
list; sync.Pool may hand back any idle element, modelled here by the list
head. -/
def poolPut (pool : List Context) (c : Context) : List Context := c :: pool

/-- DB.Acquire: takes a context from the pool, or a freshly allocated one
when the pool is empty, and resets it before handing it out. -/
def Acquire (pool : List Context) : Context × List Context :=
  match pool with
  | [] => (allocateContext.reset, [])
  | c :: rest => (c.reset, rest)

/-- Outcome of the internal find dispatcher: either a driver read call with
the statement, parameters, arity selector and transaction routing, or the
panic branch for an unknown selector. -/
inductive FindOutcome where
  | executed (query : String) (params : List Val) (one : Bool) (viaTx : Bool)
  | panicked
  deriving DecidableEq

/-- Context.find: fills in the assembled select when no raw SQL was given,
then dispatches on the selector, panicking on an unknown value. -/
def Context.find (ctx : Context) (dest : Dest) (selectType : Nat) : FindOutcome :=
  let sql := if ctx.sql = "" then ctx.sqlselect dest else ctx.sql
  if selectType = SelectTypeOne then .executed sql ctx.args true ctx.tx
  else if selectType = SelectTypeMany then .executed sql ctx.args false ctx.tx
  else .panicked

/-- Context.FindMany: the public many-rows read, delegating to find with
SelectTypeMany. -/
def Context.FindMany (ctx : Context) (dest : Dest) : FindOutcome :=
  ctx.find dest SelectTypeMany

/-- Context.FindOne: the public single-row read, delegating to find with
SelectTypeOne. -/
def Context.FindOne (ctx : Context) (dest : Dest) : FindOutcome :=
  ctx.find dest SelectTypeOne

/-- The environment a WithTx run unfolds in: the error (none meaning the
Go nil error) produced by Beginx, by the unit of work h, by Commit and by
Rollback, should each of them be invoked. -/
structure TxWorld where
  beginErr : Option String
  hErr : Option String
  commitErr : Option String
  rollbackErr : Option String
  deriving DecidableEq

/-- Observable outcome of a WithTx run: which collaborators were invoked
and the error value WithTx returns (none meaning nil). -/
structure TxTrace where
  hInvoked : Bool
  commitInvoked : Bool
  rollbackInvoked : Bool
  result : Option String
  deriving DecidableEq

/-- State of the WithTx body at a return point inside the region where the
deferred rollback closure is registered: the current value of the named
return err, and which collaborators have run. -/
structure TxBodyState where
  err : Option String
  hInvoked : Bool
  commitInvoked : Bool
  deriving DecidableEq

/-- The deferred closure of WithTx: it runs at every return of the region
it is registered in, and when the named return err is non-nil (the opened
tx is never nil there) it invokes Rollback and overwrites err with the
rollback result. -/
def runDeferred (w : TxWorld) (s : TxBodyState) : TxTrace :=
  if s.err = none then
    { hInvoked := s.hInvoked, commitInvoked := s.commitInvoked,
      rollbackInvoked := false, result := s.err }
  else
    { hInvoked := s.hInvoked, commitInvoked := s.commitInvoked,
      rollbackInvoked := true, result := w.rollbackErr }

/-- DB.WithTx: begin a transaction, returning a begin failure before the
deferred rollback closure is registered; then run the unit of work and, if
it succeeds, Commit; the deferred closure processes the named return err at
every return of that region. -/
def WithTx (w : TxWorld) : TxTrace :=
  match w.beginErr with
  | some e =>
      { hInvoked := false, commitInvoked := false,
        rollbackInvoked := false, result := some e }
  | none =>
      let afterBody : TxBodyState :=
        match w.hErr with
        | some e => { err := some e, hInvoked := true, commitInvoked := false }
        | none => { err := w.commitErr, hInvoked := true, commitInvoked := true }
      runDeferred w afterBody

/-- State of the context pool system: identities (allocation numbers) of
the contexts idle in the sync.Pool, identities checked out to callers, and
the next fresh identity the factory would allocate. -/
structure PoolSys where
  idle : List Nat
  checkedOut : List Nat
  nextId : Nat
  deriving DecidableEq

/-- The pool state at process start: no context allocated yet. -/
def initPool : PoolSys := { idle := [], checkedOut := [], nextId := 0 }

/-- Atomic transitions of the pool system as the code uses it: Acquire
removes an idle context (or lets the factory allocate a fresh one) and
hands it to one caller; the terminal operations Put the held context back
exactly once. sync.Pool makes Get and Put atomic with respect to each
other, so concurrent callers interleave these transitions. -/
inductive PoolStep : PoolSys → PoolSys → Prop
  | acquireIdle (s : PoolSys) (c : Nat) (rest : List Nat) :
      s.idle = c :: rest →
      PoolStep s { idle := rest, checkedOut := c :: s.checkedOut, nextId := s.nextId }
  | acquireNew (s : PoolSys) :
      s.idle = [] →
      PoolStep s { idle := [], checkedOut := s.nextId :: s.checkedOut, nextId := s.nextId + 1 }
  | release (s : PoolSys) (c : Nat) :
      c ∈ s.checkedOut →
      PoolStep s { idle := c :: s.idle, checkedOut := s.checkedOut.erase c, nextId := s.nextId }

/-- Pool states reachable from process start by the atomic transitions. -/
inductive PoolReachable : PoolSys → Prop
  | init : PoolReachable initPool
  | step (s t : PoolSys) : PoolReachable s → PoolStep s t → PoolReachable t

/-- The inductive invariant of the pool system: no context identity occurs
twice across the idle and checked-out lists, and every identity is below
the allocation counter. -/
def PoolInv (s : PoolSys) : Prop :=
  (s.idle ++ s.checkedOut).Nodup ∧ ∀ c ∈ s.idle ++ s.checkedOut, c < s.nextId

/-- The select-statement shape claim C4 describes, written from the words
of the specification: the fixed-order space-join of the select keyword, the
projection (explicit, else declared tags, else a star), the from clause,
then the optional where, group by, having, order by, the limit clause
present exactly when limit is non-zero, and the two lock clauses. -/
def selectSpecAssembly (ctx : Context) (dest : Dest) : String :=
  let projection : String :=
    if ctx.what ≠ [] then String.intercalate ", " ctx.what
    else if decodetags dest ≠ [] then String.intercalate ", " (decodetags dest)
    else "*"
  String.intercalate " "
    (["select", projection, "from " ++ ctx.name]
      ++ (if ctx.wheres ≠ [] then
            ["where " ++ String.intercalate " and " ctx.wheres] else [])
      ++ (if ctx.group ≠ "" then ["group by " ++ ctx.group] else [])
      ++ (if ctx.having ≠ "" then ["having " ++ ctx.having] else [])
      ++ (if ctx.order ≠ "" then ["order by " ++ ctx.order] else [])
      ++ (if ctx.limit ≠ 0 then
            ["limit " ++ toString ctx.offset ++ ", " ++ toString ctx.limit] else [])
      ++ (if ctx.lockS then ["lock in share mode"] else [])
      ++ (if ctx.lockX then ["for update"] else []))

/-- C1 counterexample: with a successful begin, a successful unit of work,
a failing Commit and a nil-returning Rollback, WithTx does not return the
commit error — the deferred closure invokes Rollback and the run returns
nil, refuting the claim that the commit error (if any) is returned. -/
theorem withTx_commit_error_not_returned :
    (WithTx { beginErr := none, hErr := none,
              commitErr := some "commit failed", rollbackErr := none }).result = none
  ∧ (WithTx { beginErr := none, hErr := none,
              commitErr := some "commit failed", rollbackErr := none }).rollbackInvoked = true
  ∧ some "commit failed" ≠ (none : Option String) := by
  refine ⟨rfl, rfl, by simp⟩

/-- C1 amended: a begin failure is returned at once with no rollback and no
commit; a unit-of-work failure triggers Rollback, never Commit, and the
rollback result replaces the original error; a successful unit of work
triggers Commit, and a successful Commit returns nil with no rollback — but
a failed Commit additionally triggers the deferred Rollback, whose result
replaces the commit error. -/
theorem withTx_amended (e hm cm : String) (h c r : Option String) :
    WithTx { beginErr := some e, hErr := h, commitErr := c, rollbackErr := r }
      = { hInvoked := false, commitInvoked := false,
          rollbackInvoked := false, result := some e }
  ∧ WithTx { beginErr := none, hErr := some hm, commitErr := c, rollbackErr := r }
      = { hInvoked := true, commitInvoked := false,
          rollbackInvoked := true, result := r }
  ∧ WithTx { beginErr := none, hErr := none, commitErr := none, rollbackErr := r }
      = { hInvoked := true, commitInvoked := true,
          rollbackInvoked := false, result := none }
  ∧ WithTx { beginErr := none, hErr := none, commitErr := some cm, rollbackErr := r }
      = { hInvoked := true, commitInvoked := true,
          rollbackInvoked := true, result := r } := by
  refine ⟨rfl, by simp [WithTx, runDeferred], rfl, by simp [WithTx, runDeferred]⟩

/-- C2: whatever context is released to the pool after a terminal operation
and whatever else the pool holds, the context the next Acquire hands out is
in the zero state: empty raw SQL, table name, projection, filters, bound
parameters, group, having and order, zero limit and offset, no transaction
handle and both lock flags false — because Acquire resets every acquired
context, including fresh ones from the factory. -/
theorem acquire_reset_law (pool : List Context) (released : Context) :
    (Acquire (poolPut pool released)).1 = zeroContext
  ∧ ∀ p : List Context, (Acquire p).1 = zeroContext := by
  constructor
  · rfl
  · intro p
    cases p with
    | nil => rfl
    | cons c rest => rfl

/-- C3: for every context and every Update call, the parameter list handed
to the driver is exactly the SET-clause arguments followed by the context's
accumulated parameters, and the statement has the shape
update (table) set (sqlset) (where). -/
theorem update_param_order (ctx : Context) (sqlset : String) (args : List Val) :
    (ctx.Update sqlset args).params = args ++ ctx.args
  ∧ (ctx.Update sqlset args).query
      = "update " ++ ctx.name ++ " set " ++ sqlset ++ " "
          ++ sqlwhere ctx.wheres Grouping := by
  exact ⟨rfl, rfl⟩

/-- C5: assembling WHERE from a fragment list joins the fragments with
the and separator behind a leading where keyword exactly when the list is
non-empty, and yields the empty string on the empty list. -/
theorem sqlwhere_assembly_law (F : List String) :
    sqlwhere F Grouping
      = if F = [] then "" else "where " ++ String.intercalate " and " F := by
  cases F with
  | nil => rfl
  | cons x xs => simp [sqlwhere, Grouping]

/-- C6: WhereIn appends exactly one filter fragment, of the form
field in (placeholders) with one placeholder per value, and appends exactly
the given values to the bound-parameter list in input order; in particular
the id example produces the three-placeholder fragment. -/
theorem whereIn_fragment_and_params (ctx : Context) (field : String) (vals : List Val) :
    (ctx.WhereIn field vals).wheres
      = ctx.wheres
          ++ [field ++ " in ("
                ++ String.intercalate ", " (List.replicate vals.length "?") ++ ")"]
  ∧ (ctx.WhereIn field vals).args = ctx.args ++ vals
  ∧ (zeroContext.WhereIn "id" [Val.int 1, Val.int 2, Val.int 3]).wheres
      = ["id in (?, ?, ?)"]
  ∧ (zeroContext.WhereIn "id" [Val.int 1, Val.int 2, Val.int 3]).args
      = [Val.int 1, Val.int 2, Val.int 3] := by
  refine ⟨rfl, rfl, by decide, rfl⟩

/-- C9: the public read operations FindOne and FindMany only ever pass the
two known selector constants to find, so for every context and destination
neither can reach the unknown-selector panic branch. -/
theorem find_selector_panic_unreachable (ctx : Context) (dest : Dest) :
    ctx.FindOne dest ≠ FindOutcome.panicked
  ∧ ctx.FindMany dest ≠ FindOutcome.panicked := by
  constructor
  · simp [Context.FindOne, Context.find, SelectTypeOne]
  · simp [Context.FindMany, Context.find, SelectTypeMany, SelectTypeOne]

/-- C10: calling Having twice replaces the having expression with the
second one while the parameters of both calls stay appended, in call order,
to the shared bound-parameter list; the doubled chain equals a single
Having call with the second expression and the concatenated arguments. -/
theorem having_twice_replaces_expression_keeps_args
    (ctx : Context) (h1 h2 : String) (a1 a2 : List Val) :
    ((ctx.Having h1 a1).Having h2 a2).having = h2
  ∧ ((ctx.Having h1 a1).Having h2 a2).args = ctx.args ++ a1 ++ a2
  ∧ (ctx.Having h1 a1).Having h2 a2 = ctx.Having h2 (a1 ++ a2) := by
  refine ⟨rfl, by simp [Context.Having], by simp [Context.Having]⟩

/-- The InsertBatch loop accumulates, onto any starting accumulators, the
row-major concatenation of the row values and one placeholder group per
row. -/
theorem foldl_insertStep (data : List (List Val)) (p : List Val) (v : List String) :
    data.foldl insertStep (p, v) = (p ++ data.flatten, v ++ data.map placeholderGroup) := by
  induction data generalizing p v with
  | nil => simp
  | cons hd tl ih => simp [insertStep, ih]

/-- C7: InsertBatch hands the driver the row-major concatenation of every
row's values, in order, and a statement with one parenthesised placeholder
group per row, each sized to its row; the name and age example yields two
groups and the flattened parameter list. -/
theorem insertBatch_assembly (ctx : Context) (fields : List String) (data : List (List Val)) :
    (ctx.InsertBatch fields data).params = data.flatten
  ∧ (ctx.InsertBatch fields data).query
      = "insert into " ++ ctx.name ++ " (" ++ String.intercalate ", " fields
          ++ ") values " ++ String.intercalate ", " (data.map placeholderGroup)
  ∧ ((zeroContext.Name "t").InsertBatch ["name", "age"]
        [[Val.str "a", Val.int 1], [Val.str "b", Val.int 2]]).params
      = [Val.str "a", Val.int 1, Val.str "b", Val.int 2]
  ∧ ((zeroContext.Name "t").InsertBatch ["name", "age"]
        [[Val.str "a", Val.int 1], [Val.str "b", Val.int 2]]).query
      = "insert into t (name, age) values (?, ?), (?, ?)" := by
  refine ⟨?_, ?_, by decide, by decide⟩
  · simp [Context.InsertBatch, foldl_insertStep]
  · simp [Context.InsertBatch, foldl_insertStep, sqljoin, SeqComma]

/-- C4: the assembled select statement coincides, for every context and
destination, with the fixed-order join the specification describes: select,
projection or declared tags or a star, from clause, then optional where,
group by, having, order by, the limit clause present exactly when limit is
non-zero, the shared-lock clause when lockS is set and the for-update
clause when lockX is set. -/
theorem sqlselect_matches_spec_assembly (ctx : Context) (dest : Dest) :
    ctx.sqlselect dest = selectSpecAssembly ctx dest := by
  unfold Context.sqlselect selectSpecAssembly
  rcases hw : ctx.what with _ | ⟨w0, ws⟩ <;>
    rcases hd : decodetags dest with _ | ⟨d0, ds⟩ <;>
      rcases hws : ctx.wheres with _ | ⟨c0, cs⟩ <;>
        simp [sqljoin, sqlwhere, Grouping, SeqComma, SeqSpace, hw, hd, hws]

/-- Every pool transition preserves the pool invariant: distinct context
identities across idle and checked-out lists, all below the allocation
counter. -/
theorem poolStep_preserves_inv {s t : PoolSys} (hInv : PoolInv s) (hstep : PoolStep s t) :
    PoolInv t := by
  obtain ⟨hnd, hlt⟩ := hInv
  cases hstep with
  | acquireIdle c rest hidle =>
      constructor
      · rw [hidle] at hnd
        simp only [List.cons_append] at hnd
        exact List.Perm.nodup List.perm_middle.symm hnd
      · intro x hx
        apply hlt
        rw [hidle]
        simp only [List.mem_append, List.mem_cons] at hx ⊢
        tauto
  | acquireNew hidle =>
      rw [hidle] at hnd
      simp only [List.nil_append] at hnd
      constructor
      · simp only [List.nil_append, List.nodup_cons]
        refine ⟨fun hmem => ?_, hnd⟩
        have hlt2 := hlt s.nextId (by rw [hidle]; simpa using hmem)
        omega
      · intro x hx
        simp only [List.nil_append, List.mem_cons] at hx
        dsimp only
        rcases hx with hx | hx
        · omega
        · have hlt2 := hlt x (by rw [hidle]; simpa using hx)
          omega
  | release c hc =>
      rw [List.nodup_append] at hnd
      obtain ⟨hidleN, hcoN, hdisj⟩ := hnd
      constructor
      · simp only [List.cons_append, List.nodup_cons]
        constructor
        · simp only [List.mem_append]
          rintro (hci | hce)
          · exact hdisj hci hc
          · exact absurd (hcoN.mem_erase_iff.mp hce).1 (by simp)
        · rw [List.nodup_append]
          refine ⟨hidleN, hcoN.erase c, fun x hx1 hx2 => ?_⟩
          exact hdisj hx1 ((List.erase_sublist c s.checkedOut).subset hx2)
      · intro x hx
        simp only [List.cons_append, List.mem_cons, List.mem_append] at hx
        rcases hx with hx | hx | hx
        · exact hx ▸ hlt c (List.mem_append.mpr (Or.inr hc))
        · exact hlt x (List.mem_append.mpr (Or.inl hx))
        · exact hlt x (List.mem_append.mpr
            (Or.inr ((List.erase_sublist c s.checkedOut).subset hx)))

/-- Every reachable pool state satisfies the pool invariant. -/
theorem poolInv_of_reachable {s : PoolSys} (hr : PoolReachable s) : PoolInv s := by
  induction hr with
  | init => exact ⟨by simp [initPool], by simp [initPool]⟩
  | step s t hs hstep ih => exact poolStep_preserves_inv ih hstep

/-- C8: in every pool state reachable by concurrent interleavings of
acquire and release, no context identity is held by two callers at once,
and no context is simultaneously idle in the pool and checked out. -/
theorem pool_exclusivity (s : PoolSys) (hr : PoolReachable s) :
    s.checkedOut.Nodup ∧ ∀ c, ¬ (c ∈ s.idle ∧ c ∈ s.checkedOut) := by
  obtain ⟨hnd, -⟩ := poolInv_of_reachable hr
  rw [List.nodup_append] at hnd
  exact ⟨hnd.2.1, fun c hc => hnd.2.2 hc.1 hc.2⟩

/-- Witness for C8 at the concrete reachable state after one fresh
acquisition from the initial pool. -/
theorem pool_exclusivity_witness :
    ({ idle := [], checkedOut := [0], nextId := 1 } : PoolSys).checkedOut.Nodup
  ∧ ∀ c, ¬ (c ∈ ({ idle := [], checkedOut := [0], nextId := 1 } : PoolSys).idle
        ∧ c ∈ ({ idle := [], checkedOut := [0], nextId := 1 } : PoolSys).checkedOut) :=
  pool_exclusivity _
    (PoolReachable.step _ _ PoolReachable.init (PoolStep.acquireNew _ rfl))

end LittleOrm
